import Mathlib

/-!
Verification of the hybrid retrieval core of edge-rag (src/retriever.py).

The retrieval pipeline of search_documents is embedded shallowly:

* external effects (the ollama embedding endpoint, the qdrant vector store,
  nltk word_tokenize, and rank_bm25 BM25Okapi) are passed in explicitly as an
  Env record of functions, so one run of the pure Lean pipeline corresponds to
  one execution of the Python function against those backends;
* Python floats are modelled as rationals (exact arithmetic);
* Python dict payloads with optional keys are modelled as records of Option
  fields, and dict.get with a default becomes Option.getD;
* raising / catching exceptions is modelled with Except: functions that the
  Python code calls inside a try block return Except values, and the except
  clause becomes a match on the error case;
* the stable Python builtin sorted(key, reverse=True) is modelled by a stable
  descending insertion sort (insertionSortDesc below): CPython guarantees a
  stable sort, and reverse=True keeps equal-key elements in original order.
-/

namespace EdgeRag

/-- Query language as resolved by the caller (detect_language or the UI
selector); the pipeline only distinguishes the strings "arabic" and
"english". -/
inductive Language where
  | english
  | arabic
deriving DecidableEq

/-- Rendering of the language back to the Python string value that is stored
into the candidate dict as the default for a missing metadata language. -/
def languageStr : Language → String
  | Language.english => "english"
  | Language.arabic => "arabic"

/-- EMBEDDING_SIZES dict of retriever.py: expected embedding width per
language (both bge-m3, both 1024). -/
def EMBEDDING_SIZES : Language → Nat
  | Language.english => 1024
  | Language.arabic => 1024

/-- Error value raised by the ollama embeddings call; it is not caught in
generate_embedding, so it propagates to the caller of search_documents. -/
structure EmbErr where
  msg : String
deriving DecidableEq

/-- One qdrant hit: a similarity score plus a payload. The payload keys
text and metadata may be absent (hit.payload.get with defaults). -/
structure HitMetadata where
  source : Option String := none
  chunk_id : Option Int := none
  total_chunks : Option Int := none
  language : Option String := none
  key_phrases : Option (List String) := none
deriving DecidableEq

structure Hit where
  text : Option String := none
  score : ℚ
  metadata : Option HitMetadata := none
deriving DecidableEq

/-- One entry of retrieved_docs: the dict built in search_documents from a
qdrant hit. The Python dict has no bm25_score key until the scoring loop
assigns one; the unscored state is represented by the value 0, which is the
spec reading (lexical score defaults to 0 until scored). -/
structure Candidate where
  text : String
  score : ℚ
  source : String
  chunk_id : Int
  total_chunks : Int
  language : String
  key_phrases : List String
  bm25_score : ℚ
deriving DecidableEq

/-- The external world of one search_documents call.

* ollamaEmbed models ollama.embeddings(model, prompt): returns the raw
  embedding list of the response, or the raised error.
* collection_exists models client.collection_exists.
* vectorSearch models client.search(collection_name, query_vector, limit):
  the list of hits, or a raised transport error (caught by the outer try).
* word_tokenize models nltk.tokenize.word_tokenize.
* bm25GetScores models BM25Okapi(tokenized_corpus).get_scores(query_tokens):
  one score per corpus document, or a raised error (e.g. the ZeroDivisionError
  on degenerate corpora), caught by the BM25 try block. -/
structure Env where
  ollamaEmbed : String → String → Except EmbErr (List ℚ)
  collection_exists : String → Bool
  vectorSearch : String → List ℚ → Nat → Except String (List Hit)
  word_tokenize : String → List String
  bm25GetScores : List (List String) → List String → Except String (List ℚ)

/-- generate_embedding of retriever.py: call the endpoint (errors propagate),
then normalize the dimension: right-pad with zeros if short, truncate if
long, keep as is if exact. -/
def generate_embedding (env : Env) (text : String) (language : Language) :
    Except EmbErr (List ℚ) :=
  let model_name := if language = Language.arabic then "bge-m3" else "bge-m3"
  match env.ollamaEmbed model_name text with
  | Except.error e => Except.error e
  | Except.ok embedding =>
    let expected_size := EMBEDDING_SIZES language
    Except.ok
      (if embedding.length < expected_size then
        embedding ++ List.replicate (expected_size - embedding.length) 0
      else if embedding.length > expected_size then
        embedding.take expected_size
      else embedding)

/-- string.punctuation of the Python standard library, with the brace
characters written as escapes. -/
def string_punctuation : String :=
  "!\"#$%&\x27()*+,-./:;<=>?@[\\]^_\x60\x7b|\x7d~"

/-- Python substring membership w in s on character lists: some contiguous
run of s equals w (the empty list is a substring of everything). -/
def isSubOf (w : List Char) : List Char → Bool
  | [] => w.isEmpty
  | c :: rest => List.isPrefixOf w (c :: rest) || isSubOf w rest

/-- Python str.lower, as a character-wise map (ASCII folding, which is what
the tokens of this pipeline exercise). -/
def pyLower (s : String) : String := String.mk (s.data.map Char.toLower)

/-- tokenize_text of retriever.py, parametric in the external nltk
word_tokenize: Arabic returns the tokens unchanged; English keeps the words
w with not (w in string.punctuation) and lowercases them. -/
def tokenize_text (wt : String → List String) (text : String)
    (language : Language) : List String :=
  if language = Language.arabic then wt text
  else
    ((wt text).filter
      (fun word => !(isSubOf word.data string_punctuation.data))).map pyLower

/-- The text used as deduplication key: hit.payload.get("text", ""). -/
def hitText (hit : Hit) : String := hit.text.getD ""

/-- The dict appended to retrieved_docs for one fresh hit, including the
metadata defaults of the source. -/
def mkCandidate (hit : Hit) (language : Language) : Candidate :=
  let md := hit.metadata.getD {}
  { text := hitText hit
    score := hit.score
    source := md.source.getD "Unknown"
    chunk_id := md.chunk_id.getD 0
    total_chunks := md.total_chunks.getD 1
    language := md.language.getD (languageStr language)
    key_phrases := md.key_phrases.getD []
    bm25_score := 0 }

/-- The dedup loop over vector_results: a hit whose text was already seen is
skipped, otherwise its candidate is appended and the text recorded. The
seen_texts set is modelled as the list of recorded texts. -/
def buildCandidatesAux (language : Language) :
    List Hit → List String → List Candidate
  | [], _ => []
  | hit :: hits, seen_texts =>
    if hitText hit ∈ seen_texts then buildCandidatesAux language hits seen_texts
    else
      mkCandidate hit language ::
        buildCandidatesAux language hits (hitText hit :: seen_texts)

def buildCandidates (hits : List Hit) (language : Language) : List Candidate :=
  buildCandidatesAux language hits []

/-- The hits retained by the dedup loop, before conversion to dicts: used to
state which hits survive deduplication. -/
def keepFirstOccurrences : List Hit → List String → List Hit
  | [], _ => []
  | hit :: hits, seen_texts =>
    if hitText hit ∈ seen_texts then keepFirstOccurrences hits seen_texts
    else hit :: keepFirstOccurrences hits (hitText hit :: seen_texts)

/-- weight_vector of retriever.py: 0.5 for english, else 1.2. -/
def weight_vector (language : Language) : ℚ :=
  if language = Language.english then 1 / 2 else 6 / 5

/-- The sort key of the final ranking: bm25_score * weight_vector + score. -/
def fusedScore (language : Language) (doc : Candidate) : ℚ :=
  doc.bm25_score * weight_vector language + doc.score

/-- Insert one element into a list that is already sorted by descending key,
placing it before the first strictly smaller key and after equal keys: this
is the insertion step of a stable descending sort. -/
def insertDesc (k : Candidate → ℚ) (a : Candidate) :
    List Candidate → List Candidate
  | [] => [a]
  | b :: bs => if k b ≤ k a then a :: b :: bs else b :: insertDesc k a bs

/-- Stable descending sort by the key k: the model of the Python builtin
sorted(docs, key, reverse=True), which is guaranteed stable. -/
def insertionSortDesc (k : Candidate → ℚ) : List Candidate → List Candidate
  | [] => []
  | a :: as => insertDesc k a (insertionSortDesc k as)

/-- The re-ranking of retrieved_docs by descending fused score. -/
def rankCandidates (language : Language) (docs : List Candidate) :
    List Candidate :=
  insertionSortDesc (fusedScore language) docs

/-- The assignment loop: doc["bm25_score"] = bm25_scores[idx] for each doc in
order. The Boolean records whether an IndexError was raised (fewer scores
than docs); the returned list reflects the in-place mutation done before the
error, with the remaining docs unchanged. rank_bm25 get_scores always
returns one score per corpus entry, so the error branch is unreachable with
the real library. -/
def assignScoresLoop : List Candidate → List ℚ → List Candidate × Bool
  | [], _ => ([], false)
  | doc :: docs, [] => (doc :: docs, true)
  | doc :: docs, s :: scores =>
    let rest := assignScoresLoop docs scores
    ({ doc with bm25_score := s } :: rest.1, rest.2)

/-- The BM25 re-ranking block of search_documents: skipped when
retrieved_docs is empty; otherwise tokenize the corpus and the query, ask the
scorer, assign the scores and sort by descending fused score; any error
inside the block is caught and leaves retrieved_docs as they are at that
point. -/
def bm25Rerank (env : Env) (query : String) (language : Language)
    (retrieved_docs : List Candidate) : List Candidate :=
  if retrieved_docs.isEmpty then retrieved_docs
  else
    let corpus := retrieved_docs.map (fun doc => doc.text)
    let tokenized_corpus :=
      corpus.map (fun doc => tokenize_text env.word_tokenize doc language)
    let query_tokens := tokenize_text env.word_tokenize query language
    match env.bm25GetScores tokenized_corpus query_tokens with
    | Except.error _ => retrieved_docs
    | Except.ok bm25_scores =>
      let assigned := assignScoresLoop retrieved_docs bm25_scores
      if assigned.2 then assigned.1
      else rankCandidates language assigned.1

/-- Collection name per language: rag_docs_ar for arabic, else rag_docs_en. -/
def collectionName (language : Language) : String :=
  if language = Language.arabic then "rag_docs_ar" else "rag_docs_en"

/-- search_documents of retriever.py. An embedding error propagates; a
missing collection returns the empty list; a vector search error is caught
and returns the empty list; otherwise the deduplicated candidates are BM25
re-ranked (with that block catching its own errors). -/
def search_documents (env : Env) (query : String) (language : Language) :
    Except EmbErr (List Candidate) :=
  match generate_embedding env query language with
  | Except.error e => Except.error e
  | Except.ok query_vector =>
    let collection_name := collectionName language
    if env.collection_exists collection_name = false then Except.ok []
    else
      match env.vectorSearch collection_name query_vector 20 with
      | Except.error _ => Except.ok []
      | Except.ok vector_results =>
        Except.ok
          (bm25Rerank env query language
            (buildCandidates vector_results language))

/-! ### Specification-side definitions and concrete sample data

isPunctOnly and specTokenizeEnglish follow the words of the spec
(drop every punctuation-only token), to be compared with the tokenizer
embedded from the source; the remaining definitions are concrete sample
inputs used by scenario conjuncts, witnesses and counterexamples. -/

/-- Modelled from the spec wording: a token is punctuation-only when every
one of its characters is a punctuation character. -/
def isPunctOnly (w : String) : Bool :=
  w.data.all (fun c => decide (c ∈ string_punctuation.data))

/-- Modelled from the spec wording for the english branch: lower-case the
word tokens and drop every punctuation-only token. -/
def specTokenizeEnglish (wt : String → List String) (text : String) :
    List String :=
  ((wt text).filter (fun w => !(isPunctOnly w))).map pyLower

/-- A tokenizer output containing a multi-character punctuation token, as
nltk word_tokenize produces for a trailing ellipsis. -/
def wtEllipsis : String → List String := fun _ => ["Hello", "..."]

/-- The three hits of the spec scenario: texts A, B, C with dense scores
0.9, 0.85, 0.4 and no metadata. -/
def hitA : Hit := { text := some "A", score := 9 / 10 }

def hitB : Hit := { text := some "B", score := 17 / 20 }

def hitC : Hit := { text := some "C", score := 2 / 5 }

/-- Two hits sharing the same text, the later one with the higher score. -/
def hitX1 : Hit := { text := some "X", score := 1 }

def hitX2 : Hit := { text := some "X", score := 2 }

/-- A hit whose metadata carries no language key. -/
def hitNoLang : Hit := { text := some "T", score := 1 }

/-- The scenario candidates before scoring (lexical score still 0). -/
def candA0 : Candidate :=
  { text := "A", score := 9 / 10, source := "Unknown", chunk_id := 0
    total_chunks := 1, language := "english", key_phrases := []
    bm25_score := 0 }

def candB0 : Candidate :=
  { text := "B", score := 17 / 20, source := "Unknown", chunk_id := 0
    total_chunks := 1, language := "english", key_phrases := []
    bm25_score := 0 }

def candC0 : Candidate :=
  { text := "C", score := 2 / 5, source := "Unknown", chunk_id := 0
    total_chunks := 1, language := "english", key_phrases := []
    bm25_score := 0 }

/-- The scenario candidates after the loop assigns the lexical scores
0.1, 0.5, 0.05. -/
def candA : Candidate := { candA0 with bm25_score := 1 / 10 }

def candB : Candidate := { candB0 with bm25_score := 1 / 2 }

def candC : Candidate := { candC0 with bm25_score := 1 / 20 }

/-- Environment of the spec scenario: embedding of the right width, an
existing collection, three hits A, B, C and lexical scores 0.1, 0.5, 0.05. -/
def scenarioEnv : Env :=
  { ollamaEmbed := fun _ _ => Except.ok (List.replicate 1024 0)
    collection_exists := fun _ => true
    vectorSearch := fun _ _ _ => Except.ok [hitA, hitB, hitC]
    word_tokenize := fun s => [s]
    bm25GetScores := fun _ _ => Except.ok [1 / 10, 1 / 2, 1 / 20] }

/-- Environment whose embedding endpoint returns a vector shorter than the
expected size. -/
def envShortEmb : Env :=
  { ollamaEmbed := fun _ _ => Except.ok [1, 2, 3]
    collection_exists := fun _ => true
    vectorSearch := fun _ _ _ => Except.ok []
    word_tokenize := fun s => [s]
    bm25GetScores := fun _ _ => Except.ok [] }

/-- Environment whose collection does not exist and whose search transport
fails. -/
def envNoColl : Env :=
  { ollamaEmbed := fun _ _ => Except.ok [1]
    collection_exists := fun _ => false
    vectorSearch := fun _ _ _ => Except.error "connection refused"
    word_tokenize := fun s => [s]
    bm25GetScores := fun _ _ => Except.ok [] }

/-- Environment whose embedding endpoint raises. -/
def envEmbFail : Env :=
  { ollamaEmbed := fun _ _ => Except.error { msg := "embedding endpoint down" }
    collection_exists := fun _ => true
    vectorSearch := fun _ _ _ => Except.ok []
    word_tokenize := fun s => [s]
    bm25GetScores := fun _ _ => Except.ok [] }

/-- Environment whose BM25 scorer raises on every input. -/
def envBm25Fail : Env :=
  { ollamaEmbed := fun _ _ => Except.ok [1]
    collection_exists := fun _ => true
    vectorSearch := fun _ _ _ => Except.ok [hitA, hitB, hitC]
    word_tokenize := fun s => [s]
    bm25GetScores := fun _ _ => Except.error "division by zero" }

/-- Environment whose vector search returns zero hits. -/
def envNoHits : Env :=
  { ollamaEmbed := fun _ _ => Except.ok [1]
    collection_exists := fun _ => true
    vectorSearch := fun _ _ _ => Except.ok []
    word_tokenize := fun s => [s]
    bm25GetScores := fun _ _ => Except.ok [] }

/-! ### Helper lemmas about the stable descending sort -/

theorem insertDesc_perm (k : Candidate → ℚ) (a : Candidate)
    (l : List Candidate) : (insertDesc k a l).Perm (a :: l) := by
  induction l with
  | nil => exact List.Perm.refl _
  | cons b bs ih =>
    by_cases h : k b ≤ k a
    · simp only [insertDesc, if_pos h]
      exact List.Perm.refl _
    · simp only [insertDesc, if_neg h]
      exact (ih.cons b).trans (List.Perm.swap a b bs)

theorem insertionSortDesc_perm (k : Candidate → ℚ) (l : List Candidate) :
    (insertionSortDesc k l).Perm l := by
  induction l with
  | nil => exact List.Perm.refl _
  | cons a as ih =>
    exact (insertDesc_perm k a (insertionSortDesc k as)).trans (ih.cons a)

theorem mem_insertDesc {k : Candidate → ℚ} {a x : Candidate}
    {l : List Candidate} : x ∈ insertDesc k a l ↔ x = a ∨ x ∈ l := by
  rw [(insertDesc_perm k a l).mem_iff, List.mem_cons]

theorem insertDesc_pairwise {k : Candidate → ℚ} {a : Candidate}
    {l : List Candidate} (h : l.Pairwise (fun x y => k y ≤ k x)) :
    (insertDesc k a l).Pairwise (fun x y => k y ≤ k x) := by
  induction l with
  | nil => simp [insertDesc]
  | cons b bs ih =>
    rcases List.pairwise_cons.mp h with ⟨hb, hbs⟩
    by_cases hc : k b ≤ k a
    · simp only [insertDesc, if_pos hc]
      refine List.pairwise_cons.mpr ⟨?_, h⟩
      intro y hy
      rcases List.mem_cons.mp hy with rfl | hy
      · exact hc
      · exact le_trans (hb y hy) hc
    · simp only [insertDesc, if_neg hc]
      refine List.pairwise_cons.mpr ⟨?_, ih hbs⟩
      intro y hy
      rcases mem_insertDesc.mp hy with rfl | hy
      · exact le_of_lt (not_le.mp hc)
      · exact hb y hy

theorem insertionSortDesc_pairwise (k : Candidate → ℚ) (l : List Candidate) :
    (insertionSortDesc k l).Pairwise (fun x y => k y ≤ k x) := by
  induction l with
  | nil => simp [insertionSortDesc]
  | cons a as ih => exact insertDesc_pairwise ih

theorem sublist_insertDesc (k : Candidate → ℚ) (a : Candidate)
    (l : List Candidate) : l.Sublist (insertDesc k a l) := by
  induction l with
  | nil => exact List.nil_sublist _
  | cons b bs ih =>
    by_cases h : k b ≤ k a
    · simp only [insertDesc, if_pos h]
      exact List.sublist_cons_self a (b :: bs)
    · simp only [insertDesc, if_neg h]
      exact ih.cons₂ b

theorem insertDesc_stable {k : Candidate → ℚ} {x y : Candidate}
    {m : List Candidate} (hy : y ∈ m) (hk : k y ≤ k x) :
    [x, y].Sublist (insertDesc k x m) := by
  induction m with
  | nil => cases hy
  | cons b bs ih =>
    by_cases hc : k b ≤ k x
    · simp only [insertDesc, if_pos hc]
      exact (List.singleton_sublist.mpr hy).cons₂ x
    · simp only [insertDesc, if_neg hc]
      rcases List.mem_cons.mp hy with rfl | hy
      · exact absurd hk hc
      · exact (ih hy).cons b

theorem insertionSortDesc_stable {k : Candidate → ℚ} {x y : Candidate}
    {l : List Candidate} (h : [x, y].Sublist l) (hk : k y ≤ k x) :
    [x, y].Sublist (insertionSortDesc k l) := by
  induction l with
  | nil => cases h
  | cons b bs ih =>
    cases h with
    | cons _ h =>
      exact (ih h).trans (sublist_insertDesc k b (insertionSortDesc k bs))
    | cons₂ _ h =>
      exact insertDesc_stable
        ((insertionSortDesc_perm k bs).mem_iff.mpr (List.singleton_sublist.mp h))
        hk

/-! ### Helper lemmas about deduplication -/

theorem buildCandidatesAux_eq (language : Language) (hits : List Hit)
    (seen : List String) :
    buildCandidatesAux language hits seen =
      (keepFirstOccurrences hits seen).map (fun h => mkCandidate h language) := by
  induction hits generalizing seen with
  | nil => rfl
  | cons hit hits ih =>
    by_cases h : hitText hit ∈ seen
    · simp only [buildCandidatesAux, keepFirstOccurrences, if_pos h, ih]
    · simp only [buildCandidatesAux, keepFirstOccurrences, if_neg h, ih,
        List.map_cons]

theorem keepFirstOccurrences_sublist (hits : List Hit) (seen : List String) :
    (keepFirstOccurrences hits seen).Sublist hits := by
  induction hits generalizing seen with
  | nil => exact List.Sublist.refl _
  | cons hit hits ih =>
    by_cases h : hitText hit ∈ seen
    · simp only [keepFirstOccurrences, if_pos h]
      exact (ih seen).trans (List.sublist_cons_self hit hits)
    · simp only [keepFirstOccurrences, if_neg h]
      exact (ih (hitText hit :: seen)).cons₂ hit

theorem keepFirstOccurrences_not_seen {hits : List Hit} {seen : List String} :
    ∀ h ∈ keepFirstOccurrences hits seen, hitText h ∉ seen := by
  induction hits generalizing seen with
  | nil => intro h hmem; cases hmem
  | cons hit hits ih =>
    intro h hmem
    by_cases hc : hitText hit ∈ seen
    · rw [keepFirstOccurrences, if_pos hc] at hmem
      exact ih h hmem
    · rw [keepFirstOccurrences, if_neg hc] at hmem
      rcases List.mem_cons.mp hmem with rfl | hmem
      · exact hc
      · intro hs
        exact ih h hmem (List.mem_cons_of_mem _ hs)

theorem keepFirstOccurrences_pairwise (hits : List Hit) (seen : List String) :
    (keepFirstOccurrences hits seen).Pairwise
      (fun a b => hitText a ≠ hitText b) := by
  induction hits generalizing seen with
  | nil => exact List.Pairwise.nil
  | cons hit hits ih =>
    by_cases hc : hitText hit ∈ seen
    · rw [keepFirstOccurrences, if_pos hc]
      exact ih seen
    · rw [keepFirstOccurrences, if_neg hc]
      refine List.pairwise_cons.mpr ⟨?_, ih (hitText hit :: seen)⟩
      intro b hb heq
      exact keepFirstOccurrences_not_seen b hb (heq ▸ List.mem_cons_self _ _)

theorem mkCandidate_text (hit : Hit) (language : Language) :
    (mkCandidate hit language).text = hitText hit := rfl

theorem mkCandidate_bm25 (hit : Hit) (language : Language) :
    (mkCandidate hit language).bm25_score = 0 := rfl

theorem buildCandidates_bm25 {hits : List Hit} {language : Language} :
    ∀ c ∈ buildCandidates hits language, c.bm25_score = 0 := by
  intro c hc
  rw [buildCandidates, buildCandidatesAux_eq] at hc
  rcases List.mem_map.mp hc with ⟨hit, _, rfl⟩
  exact mkCandidate_bm25 hit language

/-! ### Helper lemmas about tokenization and the pipeline plumbing -/

theorem isSubOf_subset {w s : List Char} (h : isSubOf w s = true) :
    ∀ c ∈ w, c ∈ s := by
  induction s with
  | nil =>
    rw [isSubOf, List.isEmpty_iff] at h
    subst h
    intro c hc
    cases hc
  | cons b bs ih =>
    rw [isSubOf, Bool.or_eq_true] at h
    rcases h with h | h
    · exact fun c hc => (List.isPrefixOf_iff_prefix.mp h).subset hc
    · exact fun c hc => List.mem_cons_of_mem b (ih h c hc)

theorem isSubOf_singleton {c : Char} {s : List Char} (h : c ∈ s) :
    isSubOf [c] s = true := by
  induction s with
  | nil => cases h
  | cons b bs ih =>
    rw [isSubOf, Bool.or_eq_true]
    rcases List.mem_cons.mp h with rfl | h
    · left
      simp [List.isPrefixOf]
    · right
      exact ih h

theorem isSubOf_iff {w s : List Char} : isSubOf w s = true ↔ w <:+: s := by
  induction s with
  | nil => simp [isSubOf, List.isEmpty_iff]
  | cons b bs ih =>
    rw [isSubOf, Bool.or_eq_true, List.isPrefixOf_iff_prefix, ih,
      List.infix_cons_iff]

theorem isSubOf_eq_decide (w s : List Char) :
    isSubOf w s = decide (w <:+: s) := by
  by_cases h : w <:+: s
  · rw [isSubOf_iff.mpr h, decide_eq_true h]
  · rw [decide_eq_false h]
    exact Bool.eq_false_iff.mpr (fun ht => h (isSubOf_iff.mp ht))

/-- Both branches of the model selection in generate_embedding name the same
model. -/
theorem model_name_eq (language : Language) :
    (if language = Language.arabic then "bge-m3" else "bge-m3") = "bge-m3" := by
  cases language <;> rfl

theorem generate_embedding_err {env : Env} {text : String}
    {language : Language} {e : EmbErr}
    (h : env.ollamaEmbed "bge-m3" text = Except.error e) :
    generate_embedding env text language = Except.error e := by
  cases language <;> simp [generate_embedding, h]

theorem generate_embedding_ok {env : Env} {text : String}
    {language : Language} {raw : List ℚ}
    (h : env.ollamaEmbed "bge-m3" text = Except.ok raw) :
    generate_embedding env text language = Except.ok
      (if raw.length < EMBEDDING_SIZES language then
        raw ++ List.replicate (EMBEDDING_SIZES language - raw.length) 0
      else if raw.length > EMBEDDING_SIZES language then
        raw.take (EMBEDDING_SIZES language)
      else raw) := by
  cases language <;> simp [generate_embedding, h]

theorem bm25Rerank_error {env : Env} {query : String} {language : Language}
    {docs : List Candidate} {msg : String}
    (hbm : ∀ c q, env.bm25GetScores c q = Except.error msg) :
    bm25Rerank env query language docs = docs := by
  by_cases hd : docs.isEmpty <;> simp [bm25Rerank, hd, hbm]

theorem search_documents_unfold {env : Env} {query : String}
    {language : Language} {raw : List ℚ}
    (hok : env.ollamaEmbed "bge-m3" query = Except.ok raw)
    (hcoll : env.collection_exists (collectionName language) = true) :
    search_documents env query language =
      match env.vectorSearch (collectionName language)
          (if raw.length < EMBEDDING_SIZES language then
            raw ++ List.replicate (EMBEDDING_SIZES language - raw.length) 0
          else if raw.length > EMBEDDING_SIZES language then
            raw.take (EMBEDDING_SIZES language)
          else raw) 20 with
      | Except.error _ => Except.ok []
      | Except.ok vector_results =>
        Except.ok
          (bm25Rerank env query language
            (buildCandidates vector_results language)) := by
  rw [search_documents, generate_embedding_ok hok]
  simp [hcoll]

/-! ### Claim theorems -/

/-- C2: for every input text and every language, when the embedding endpoint
answers with a raw vector, generate_embedding returns a list of length
exactly EMBEDDING_SIZES language: a shorter raw embedding is right-padded
with zeros to the expected size, a longer one is truncated to its first
expected_size elements, and one of exactly the expected size is returned
unchanged. -/
theorem generate_embedding_normalizes (env : Env) (text : String)
    (language : Language) (raw : List ℚ)
    (hok : env.ollamaEmbed "bge-m3" text = Except.ok raw) :
    ∃ emb, generate_embedding env text language = Except.ok emb
      ∧ emb.length = EMBEDDING_SIZES language
      ∧ (raw.length < EMBEDDING_SIZES language →
          emb = raw ++ List.replicate (EMBEDDING_SIZES language - raw.length) 0)
      ∧ (raw.length > EMBEDDING_SIZES language →
          emb = raw.take (EMBEDDING_SIZES language))
      ∧ (raw.length = EMBEDDING_SIZES language → emb = raw) := by
  refine ⟨_, generate_embedding_ok hok, ?_, ?_, ?_, ?_⟩
  · rcases Nat.lt_trichotomy raw.length (EMBEDDING_SIZES language) with h | h | h
    · rw [if_pos h]
      simp only [List.length_append, List.length_replicate]
      omega
    · rw [if_neg (by omega), if_neg (by omega)]
      exact h
    · rw [if_neg (by omega), if_pos h]
      simp only [List.length_take]
      omega
  · intro h
    rw [if_pos h]
  · intro h
    rw [if_neg (by omega), if_pos h]
  · intro h
    rw [if_neg (by omega), if_neg (by omega)]

/-- Witness for C2: a raw embedding of length 3 is padded to 1024. -/
theorem generate_embedding_normalizes_witness :
    ∃ emb, generate_embedding envShortEmb "q" Language.english = Except.ok emb
      ∧ emb.length = EMBEDDING_SIZES Language.english
      ∧ (([(1:ℚ), 2, 3].length < EMBEDDING_SIZES Language.english →
          emb = [(1:ℚ), 2, 3] ++
            List.replicate
              (EMBEDDING_SIZES Language.english - [(1:ℚ), 2, 3].length) 0))
      ∧ ([(1:ℚ), 2, 3].length > EMBEDDING_SIZES Language.english →
          emb = [(1:ℚ), 2, 3].take (EMBEDDING_SIZES Language.english))
      ∧ ([(1:ℚ), 2, 3].length = EMBEDDING_SIZES Language.english →
          emb = [(1:ℚ), 2, 3]) :=
  generate_embedding_normalizes envShortEmb "q" Language.english [1, 2, 3] rfl

/-- C3: the candidate list built from the vector-search hits keeps only the
first hit (in returned rank order) for each text, in backend order: the
built list is exactly the first-occurrence hits mapped to candidates, those
hits form a sublist of the returned hits (order preserved), no two
candidates share a text, and a later duplicate with the higher score is
discarded (concrete instance hitX1 before hitX2). -/
theorem dedup_first_occurrence (hits : List Hit) (language : Language) :
    buildCandidates hits language =
      (keepFirstOccurrences hits []).map (fun h => mkCandidate h language)
    ∧ (keepFirstOccurrences hits []).Sublist hits
    ∧ (buildCandidates hits language).Pairwise (fun a b => a.text ≠ b.text)
    ∧ buildCandidates [hitX1, hitX2] Language.english =
        [mkCandidate hitX1 Language.english] := by
  refine ⟨buildCandidatesAux_eq language hits [],
    keepFirstOccurrences_sublist hits [], ?_, rfl⟩
  rw [buildCandidates, buildCandidatesAux_eq]
  exact List.Pairwise.map _ (fun a b h => h)
    (keepFirstOccurrences_pairwise hits [])

/-- Witness for C3 at the two-duplicate-hits input. -/
theorem dedup_first_occurrence_witness :
    (keepFirstOccurrences [hitX1, hitX2] []).Sublist [hitX1, hitX2] :=
  (dedup_first_occurrence [hitX1, hitX2] Language.english).2.1

/-- C4: with the embedding call succeeding, a missing collection makes
search_documents return the empty list, and so does a vector-search call
that raises: in both cases the result is an ok value, no error reaches the
caller. -/
theorem missing_collection_or_search_error_empty (env : Env) (query : String)
    (language : Language) (raw : List ℚ) (msg : String)
    (hok : env.ollamaEmbed "bge-m3" query = Except.ok raw) :
    (env.collection_exists (collectionName language) = false →
      search_documents env query language = Except.ok [])
    ∧ (env.collection_exists (collectionName language) = true →
      (∀ c v, env.vectorSearch c v 20 = Except.error msg) →
      search_documents env query language = Except.ok []) := by
  constructor
  · intro hc
    rw [search_documents, generate_embedding_ok hok]
    simp [hc]
  · intro hc hs
    rw [search_documents_unfold hok hc, hs]

/-- Witness for C4: missing collection yields the empty result. -/
theorem missing_collection_or_search_error_empty_witness :
    search_documents envNoColl "q" Language.english = Except.ok [] :=
  (missing_collection_or_search_error_empty envNoColl "q" Language.english
    [1] "connection refused" rfl).1 rfl

/-- C5: when the embedding endpoint raises, search_documents propagates that
very error to its caller, and the outcome does not depend on any of the
other backends (no vector search, lexical scoring or fusion contributes):
any environment with the same embedding endpoint yields the same error and
no candidate list. -/
theorem embedding_failure_propagates (env : Env) (query : String)
    (language : Language) (e : EmbErr)
    (h : env.ollamaEmbed "bge-m3" query = Except.error e) :
    search_documents env query language = Except.error e
    ∧ ∀ env2 : Env, env2.ollamaEmbed = env.ollamaEmbed →
        search_documents env2 query language = Except.error e := by
  have main : ∀ env3 : Env,
      env3.ollamaEmbed "bge-m3" query = Except.error e →
      search_documents env3 query language = Except.error e := by
    intro env3 h3
    rw [search_documents, generate_embedding_err h3]
  exact ⟨main env h, fun env2 h2 => main env2 (by rw [h2]; exact h)⟩

/-- Witness for C5 at a concrete failing endpoint. -/
theorem embedding_failure_propagates_witness :
    search_documents envEmbFail "q" Language.english =
      Except.error { msg := "embedding endpoint down" } :=
  (embedding_failure_propagates envEmbFail "q" Language.english
    { msg := "embedding endpoint down" } rfl).1

/-- C8: when the vector search returns zero hits, search_documents returns
the empty (ok, not error) list, and the lexical-scoring and fusion stages
are never consulted: the result stays the empty list for every choice of
tokenizer and BM25 scorer. -/
theorem empty_search_empty_result (env : Env) (query : String)
    (language : Language) (raw : List ℚ)
    (hok : env.ollamaEmbed "bge-m3" query = Except.ok raw)
    (hcoll : env.collection_exists (collectionName language) = true)
    (hs : ∀ c v, env.vectorSearch c v 20 = Except.ok []) :
    search_documents env query language = Except.ok []
    ∧ ∀ f g, search_documents
        { env with word_tokenize := g, bm25GetScores := f } query language =
        Except.ok [] := by
  have main : ∀ env3 : Env,
      env3.ollamaEmbed "bge-m3" query = Except.ok raw →
      env3.collection_exists (collectionName language) = true →
      (∀ c v, env3.vectorSearch c v 20 = Except.ok []) →
      search_documents env3 query language = Except.ok [] := by
    intro env3 h1 h2 h3
    rw [search_documents_unfold h1 h2, h3]
    rfl
  exact ⟨main env hok hcoll hs, fun f g => main _ hok hcoll hs⟩

/-- Witness for C8 at a concrete zero-hit environment. -/
theorem empty_search_empty_result_witness :
    search_documents envNoHits "q" Language.english = Except.ok [] :=
  (empty_search_empty_result envNoHits "q" Language.english [1] rfl rfl
    (fun _ _ => rfl)).1

/-- C9: a candidate built from a hit whose metadata has no language key gets
the language of the query, and one whose metadata carries a language keeps
that value. -/
theorem candidate_language_default (hit : Hit) (language : Language) :
    ((hit.metadata.getD {}).language = none →
      (mkCandidate hit language).language = languageStr language)
    ∧ ∀ s, (hit.metadata.getD {}).language = some s →
        (mkCandidate hit language).language = s := by
  constructor
  · intro h
    simp [mkCandidate, h]
  · intro s h
    simp [mkCandidate, h]

/-- Witness for C9 at a hit with no metadata. -/
theorem candidate_language_default_witness :
    (mkCandidate hitNoLang Language.english).language =
      languageStr Language.english :=
  (candidate_language_default hitNoLang Language.english).1 rfl

/-- C6: when the BM25 scorer raises, search_documents still returns the
candidate list (the pipeline does not abort) and every returned candidate
carries the lexical score 0, the unscored default. -/
theorem bm25_failure_keeps_candidates (env : Env) (query : String)
    (language : Language) (raw : List ℚ) (hits : List Hit) (msg : String)
    (hok : env.ollamaEmbed "bge-m3" query = Except.ok raw)
    (hcoll : env.collection_exists (collectionName language) = true)
    (hs : ∀ c v, env.vectorSearch c v 20 = Except.ok hits)
    (hbm : ∀ c q, env.bm25GetScores c q = Except.error msg) :
    search_documents env query language =
      Except.ok (buildCandidates hits language)
    ∧ ∀ doc ∈ buildCandidates hits language, doc.bm25_score = 0 := by
  constructor
  · rw [search_documents_unfold hok hcoll, hs]
    simp only [bm25Rerank_error hbm]
  · exact buildCandidates_bm25

/-- Witness for C6 at a concrete failing scorer. -/
theorem bm25_failure_keeps_candidates_witness :
    search_documents envBm25Fail "q" Language.english =
      Except.ok (buildCandidates [hitA, hitB, hitC] Language.english) :=
  (bm25_failure_keeps_candidates envBm25Fail "q" Language.english [1]
    [hitA, hitB, hitC] "division by zero" rfl rfl (fun _ _ => rfl)
    (fun _ _ => rfl)).1

/-- C10: when the BM25 scorer raises, search_documents returns exactly the
deduplicated candidate list as built from the vector-search hits: the
first-occurrence hits, in backend rank order, mapped to candidates with all
fields as the dedup loop produced them, with no reordering by fused
score. -/
theorem bm25_failure_returns_dedup_list (env : Env) (query : String)
    (language : Language) (raw : List ℚ) (hits : List Hit) (msg : String)
    (hok : env.ollamaEmbed "bge-m3" query = Except.ok raw)
    (hcoll : env.collection_exists (collectionName language) = true)
    (hs : ∀ c v, env.vectorSearch c v 20 = Except.ok hits)
    (hbm : ∀ c q, env.bm25GetScores c q = Except.error msg) :
    search_documents env query language =
      Except.ok ((keepFirstOccurrences hits []).map
        (fun h => mkCandidate h language)) := by
  rw [search_documents_unfold hok hcoll, hs]
  simp only [bm25Rerank_error hbm]
  rw [buildCandidates, buildCandidatesAux_eq]

/-- Witness for C10 at a concrete failing scorer. -/
theorem bm25_failure_returns_dedup_list_witness :
    search_documents envBm25Fail "q2" Language.english =
      Except.ok ((keepFirstOccurrences [hitA, hitB, hitC] []).map
        (fun h => mkCandidate h Language.english)) :=
  bm25_failure_returns_dedup_list envBm25Fail "q2" Language.english [1]
    [hitA, hitB, hitC] "division by zero" rfl rfl (fun _ _ => rfl)
    (fun _ _ => rfl)

/-- C1: the fused re-ranking sorts any scored candidate list by descending
fused key bm25_score * weight + dense score, stably (a permutation, sorted
descending, and two candidates with equal fused keys keep their prior
relative order), with weight 0.5 for english and 1.2 for arabic; and on the
spec scenario (dense scores 0.9, 0.85, 0.4; lexical scores 0.1, 0.5, 0.05;
english), search_documents returns the order B, A, C with fused scores
1.10, 0.95, 0.425. -/
theorem fused_ranking_correct (language : Language) (docs : List Candidate) :
    (rankCandidates language docs).Perm docs
    ∧ (rankCandidates language docs).Pairwise
        (fun a b => fusedScore language b ≤ fusedScore language a)
    ∧ (∀ a b : Candidate, [a, b].Sublist docs →
        fusedScore language a = fusedScore language b →
        [a, b].Sublist (rankCandidates language docs))
    ∧ weight_vector Language.english = 1 / 2
    ∧ weight_vector Language.arabic = 6 / 5
    ∧ search_documents scenarioEnv "benefits of AI in healthcare"
        Language.english = Except.ok [candB, candA, candC]
    ∧ fusedScore Language.english candB = 11 / 10
    ∧ fusedScore Language.english candA = 19 / 20
    ∧ fusedScore Language.english candC = 17 / 40 := by
  refine ⟨insertionSortDesc_perm _ docs, insertionSortDesc_pairwise _ docs,
    ?_, rfl, rfl, ?_, ?_, ?_, ?_⟩
  · intro a b hsub heq
    exact insertionSortDesc_stable hsub (le_of_eq heq.symm)
  · have h1 : fusedScore Language.english candC ≤
        fusedScore Language.english candB := by
      norm_num [fusedScore, weight_vector, candB, candC, candB0, candC0]
    have h2 : ¬ fusedScore Language.english candB ≤
        fusedScore Language.english candA := by
      norm_num [fusedScore, weight_vector, candA, candB, candA0, candB0]
    have h3 : fusedScore Language.english candC ≤
        fusedScore Language.english candA := by
      norm_num [fusedScore, weight_vector, candA, candC, candA0, candC0]
    have hpipe : search_documents scenarioEnv "benefits of AI in healthcare"
        Language.english =
        Except.ok (rankCandidates Language.english [candA, candB, candC]) := by
      rw [@search_documents_unfold scenarioEnv "benefits of AI in healthcare"
        Language.english (List.replicate 1024 0) rfl rfl]
      rfl
    rw [hpipe]
    have hsort : rankCandidates Language.english [candA, candB, candC] =
        [candB, candA, candC] := by
      simp [rankCandidates, insertionSortDesc, insertDesc, h1, h2, h3]
    rw [hsort]
  · norm_num [fusedScore, weight_vector, candB, candB0]
  · norm_num [fusedScore, weight_vector, candA, candA0]
  · norm_num [fusedScore, weight_vector, candC, candC0]

/-- Witness for C1: the stability conjunct instantiated at a concrete list
with equal fused keys. -/
theorem fused_ranking_correct_witness :
    [candA0, candA0].Sublist (rankCandidates Language.english [candA0, candA0]) :=
  (fused_ranking_correct Language.english [candA0, candA0]).2.2.1 candA0 candA0
    (List.Sublist.refl _) rfl

/-- C7 counterexample: a tokenizer output containing the multi-character
punctuation-only token "..." (which nltk word_tokenize produces for an
ellipsis) survives the english branch, because the code tests membership of
the whole word in the punctuation string (a contiguous-substring test)
rather than testing that the word consists of punctuation characters; the
behaviour claimed by the spec would drop it. -/
theorem tokenize_text_counterexample :
    tokenize_text wtEllipsis "Hello..." Language.english = ["hello", "..."]
    ∧ specTokenizeEnglish wtEllipsis "Hello..." = ["hello"]
    ∧ isPunctOnly "..." = true := by
  refine ⟨?_, ?_, ?_⟩ <;> decide

/-- C7 (amended): tokenize_text with arabic returns the word tokens
unchanged; with english it returns the word tokens lower-cased, dropping
exactly those tokens that occur as a contiguous substring of
string.punctuation: every dropped token consists solely of punctuation
characters, and every single-character punctuation token is dropped
(multi-character punctuation-only tokens such as "..." are kept). -/
theorem tokenize_text_amended (wt : String → List String) (text : String) :
    tokenize_text wt text Language.arabic = wt text
    ∧ tokenize_text wt text Language.english =
        ((wt text).filter
          (fun word => !(decide (word.data <:+: string_punctuation.data)))).map
          pyLower
    ∧ (∀ w : String, isSubOf w.data string_punctuation.data = true →
        isPunctOnly w = true)
    ∧ ∀ c : Char, c ∈ string_punctuation.data →
        isSubOf [c] string_punctuation.data = true := by
  refine ⟨rfl, ?_, ?_, fun c hc => isSubOf_singleton hc⟩
  · rw [show (fun word : String =>
        !(decide (word.data <:+: string_punctuation.data))) =
        (fun word : String => !(isSubOf word.data string_punctuation.data))
      from funext fun word => by rw [isSubOf_eq_decide]]
    rfl
  · intro w hw
    rw [isPunctOnly]
    simp only [List.all_eq_true, decide_eq_true_eq]
    intro c hcw
    exact (isSubOf_iff.mp hw).subset hcw

/-- Witness for C7 (amended): the comma token is dropped. -/
theorem tokenize_text_amended_witness :
    isSubOf [','] string_punctuation.data = true :=
  (tokenize_text_amended wtEllipsis "x").2.2.2 ',' (by decide)

end EdgeRag
